import Mathlib

/-!
Shallow embedding of the `poker_betting` Anchor program
(`src/contracts/programs/poker-betting/src/lib.rs`) and proofs about it.

Pubkeys are modelled as `Nat`, `u64` values as `Nat` with the explicit
bound `U64_MAX = 2^64 - 1` where the source uses checked arithmetic,
`i64` timestamps as `Int` passed in as an explicit `now` parameter
(standing for `Clock::get()?.unix_timestamp`).  Fallible instruction
handlers return `Except BettingError _`; an error means the whole
transaction aborts, so no updated accounts are produced.
-/

namespace PokerBetting

/-- Largest value representable in a `u64` (`u64::MAX`). -/
def U64_MAX : Nat := 2 ^ 64 - 1

/-- Rust `u64::checked_add`: `some (a + b)` unless the sum exceeds
`u64::MAX`, in which case `none`. -/
def checked_add (a b : Nat) : Option Nat :=
  if a + b ≤ U64_MAX then some (a + b) else none

/-- `LobbyStatus` from lib.rs:302-306. -/
inductive LobbyStatus where
  | Waiting
  | Running
  | Finished
deriving DecidableEq, Repr

/-- `BetStatus` from lib.rs:309-313. -/
inductive BetStatus where
  | Active
  | Paid
  | Refunded
deriving DecidableEq, Repr

/-- `BettingError` from lib.rs:316-337. -/
inductive BettingError where
  | LobbyNotOpenForBets
  | InvalidPlayerName
  | BetAmountMustBePositive
  | Unauthorized
  | LobbyNotFinished
  | InvalidBetAccount
  | InvalidBettor
  | BetOnWrongPlayer
  | BetAlreadyProcessed
  | Overflow
deriving DecidableEq, Repr

/-- The `Lobby` account from lib.rs:269-281.  `owner` is the owner's
pubkey (a `Nat` here), timestamps are `Int`. -/
structure Lobby where
  owner : Nat
  game_id : String
  model_names : List String
  starting_chips : Nat
  small_blind : Nat
  big_blind : Nat
  max_hands : Nat
  status : LobbyStatus
  total_bets : Nat
  created_at : Int
  updated_at : Int
deriving DecidableEq, Repr

/-- The `Bet` account from lib.rs:288-295.  `lobby` is the owning
lobby's account address (pubkey). -/
structure Bet where
  bettor : Nat
  lobby : Nat
  player_name : String
  amount : Nat
  placed_at : Int
  status : BetStatus
deriving DecidableEq, Repr

/-- `Lobby::LEN` from lib.rs:284:
`32 + 4 + 32 + 4 + (4 + 32) * 10 + 8 + 8 + 8 + 8 + 8 + 8 + 8`. -/
def Lobby.LEN : Nat := 32 + 4 + 32 + 4 + (4 + 32) * 10 + 8 + 8 + 8 + 8 + 8 + 8 + 8

/-- Borsh-serialized size of a `String`: a 4-byte length prefix plus the
UTF-8 bytes. -/
def borshStrLen (s : String) : Nat := 4 + s.utf8ByteSize

/-- Borsh-serialized size of a `Lobby`'s account data (discriminator
excluded): pubkey 32, strings 4 + bytes, `Vec<String>` 4 + entries, each
`u64`/`i64` 8, the fieldless `LobbyStatus` enum 1. -/
def lobbySerSize (l : Lobby) : Nat :=
  32 + borshStrLen l.game_id + (4 + (l.model_names.map borshStrLen).sum)
    + 8 + 8 + 8 + 8 + 1 + 8 + 8 + 8

/-- The lobby record `create_lobby` fills in at lib.rs:18-29: status
`Waiting`, `total_bets` 0, both timestamps the current time. -/
def initLobby (owner : Nat) (game_id : String) (model_names : List String)
    (starting_chips small_blind big_blind max_hands : Nat) (now : Int) : Lobby :=
  { owner := owner
    game_id := game_id
    model_names := model_names
    starting_chips := starting_chips
    small_blind := small_blind
    big_blind := big_blind
    max_hands := max_hands
    status := LobbyStatus.Waiting
    total_bets := 0
    created_at := now
    updated_at := now }

/-- `create_lobby` (lib.rs:9-49).  The handler body performs no
validation of `model_names`; the only bound comes from the hosting
environment: the account is allocated with `space = 8 + Lobby::LEN`
(lib.rs:174), and the environment aborts the transaction when the
borsh-serialized account data does not fit the allocation.  That
fits-in-allocation guard is the `lobbySerSize _ ≤ Lobby.LEN` test here;
`none` is that environment-level abort (not a `BettingError`).  The
rent-exempt funding transfer to the escrow (lib.rs:33-46) moves lamports
only and touches no field modelled here. -/
def create_lobby (owner : Nat) (game_id : String) (model_names : List String)
    (starting_chips small_blind big_blind max_hands : Nat) (now : Int) :
    Option Lobby :=
  if lobbySerSize (initLobby owner game_id model_names starting_chips small_blind
      big_blind max_hands now) ≤ Lobby.LEN then
    some (initLobby owner game_id model_names starting_chips small_blind big_blind
      max_hands now)
  else none

/-- `place_bet` (lib.rs:51-100).  `lobby_key` is the lobby account's
address, `bettor` the signer's pubkey.  The three `require!` checks come
first; the bettor→escrow lamport transfer (lib.rs:76-84) moves balances
only; then the bet record is filled and `total_bets` is bumped with
`checked_add`, `Overflow` aborting everything.  On success the updated
lobby and the new bet account are returned. -/
def place_bet (lobby : Lobby) (lobby_key : Nat) (bettor : Nat)
    (player_name : String) (amount : Nat) (now : Int) :
    Except BettingError (Lobby × Bet) :=
  if lobby.status = LobbyStatus.Waiting ∨ lobby.status = LobbyStatus.Running then
    if lobby.model_names.contains player_name then
      if 0 < amount then
        let bet : Bet :=
          { bettor := bettor
            lobby := lobby_key
            player_name := player_name
            amount := amount
            placed_at := now
            status := BetStatus.Active }
        match checked_add lobby.total_bets amount with
        | some t => Except.ok ({ lobby with total_bets := t, updated_at := now }, bet)
        | none => Except.error BettingError.Overflow
      else Except.error BettingError.BetAmountMustBePositive
    else Except.error BettingError.InvalidPlayerName
  else Except.error BettingError.LobbyNotOpenForBets

/-- `update_lobby_status` (lib.rs:102-108): owner check, then the status
is overwritten unconditionally and `updated_at` refreshed. -/
def update_lobby_status (lobby : Lobby) (caller : Nat) (status : LobbyStatus)
    (now : Int) : Except BettingError Lobby :=
  if lobby.owner = caller then
    Except.ok { lobby with status := status, updated_at := now }
  else Except.error BettingError.Unauthorized

/-- `distribute_single_winning` (lib.rs:110-165).  The six `require!`
checks in source order; the escrow→bettor lamport transfer
(lib.rs:133-159) moves balances only; then `bet.status` becomes `Paid`
and `lobby.updated_at` is refreshed. -/
def distribute_single_winning (lobby : Lobby) (lobby_key : Nat) (bet : Bet)
    (bettor owner : Nat) (winner_name : String) (now : Int) :
    Except BettingError (Lobby × Bet) :=
  if lobby.owner = owner then
    if lobby.status = LobbyStatus.Finished then
      if bet.lobby = lobby_key then
        if bet.bettor = bettor then
          if bet.player_name = winner_name then
            if bet.status = BetStatus.Active then
              Except.ok ({ lobby with updated_at := now },
                { bet with status := BetStatus.Paid })
            else Except.error BettingError.BetAlreadyProcessed
          else Except.error BettingError.BetOnWrongPlayer
        else Except.error BettingError.InvalidBettor
      else Except.error BettingError.InvalidBetAccount
    else Except.error BettingError.LobbyNotFinished
  else Except.error BettingError.Unauthorized

/-- State of one lobby and the bet accounts attached to it.  The hosting
environment derives the bet account address from `(lobby, bettor)`, so
bets are keyed by the bettor's pubkey. -/
structure LedgerState where
  lobby_key : Nat
  lobby : Lobby
  bets : List Bet
deriving DecidableEq, Repr

/-- Instructions that touch an existing lobby. -/
inductive Op where
  | placeBet (bettor : Nat) (player_name : String) (amount : Nat) (now : Int)
  | updateStatus (caller : Nat) (status : LobbyStatus) (now : Int)
  | distribute (owner bettor : Nat) (winner_name : String) (now : Int)
deriving DecidableEq, Repr

/-- Look up the bet account at the address derived from `(lobby, bk)`;
the environment derives one address per bettor, so the first match is
the account. -/
def findBet (bets : List Bet) (bk : Nat) : Option Bet :=
  bets.find? (fun b => b.bettor == bk)

/-- Overwrite the bet account stored under bettor key `bk` (the first
match, the one `findBet` returns) with `b`. -/
def replaceBet : List Bet → Nat → Bet → List Bet
  | [], _, _ => []
  | x :: xs, bk, b => if x.bettor == bk then b :: xs else x :: replaceBet xs bk b

/-- Committed effect of one instruction on the ledger.  A failing
instruction leaves the state untouched (Solana transactions are atomic).
`placeBet` aborts at the environment level when the `(lobby, bettor)` bet
account already exists (`init` fails), so the program body never runs
then; `distribute` needs the bet account at that address to exist. -/
def stepOp (s : LedgerState) (op : Op) : LedgerState :=
  match op with
  | Op.placeBet bk pn amt now =>
    match findBet s.bets bk with
    | some _ => s
    | none =>
      match place_bet s.lobby s.lobby_key bk pn amt now with
      | Except.ok (l, b) => { s with lobby := l, bets := b :: s.bets }
      | Except.error _ => s
  | Op.updateStatus ck st now =>
    match update_lobby_status s.lobby ck st now with
    | Except.ok l => { s with lobby := l }
    | Except.error _ => s
  | Op.distribute own bk wn now =>
    match findBet s.bets bk with
    | none => s
    | some bet =>
      match distribute_single_winning s.lobby s.lobby_key bet bk own wn now with
      | Except.ok (l, b) =>
        { s with lobby := l, bets := replaceBet s.bets bk b }
      | Except.error _ => s

/-- Run a whole sequence of committed instructions. -/
def run (s : LedgerState) (ops : List Op) : LedgerState :=
  ops.foldl stepOp s

/-- Funds-conservation invariant: the lobby's running total equals the
sum of the amounts of the bet records referencing it. -/
def Inv (s : LedgerState) : Prop :=
  s.lobby.total_bets = (s.bets.map Bet.amount).sum

instance (s : LedgerState) : Decidable (Inv s) := by
  unfold Inv; infer_instance

/-- Concrete lobby with two outcome names, open for bets (spec §8
scenario "g1"). -/
def exLobbyW : Lobby := initLobby 1 "g1" ["alice", "bob"] 0 0 0 0 0

/-- `exLobbyW` after the owner moved it to `Finished`, with one 100-unit
bet placed meanwhile. -/
def exLobby : Lobby :=
  { exLobbyW with status := LobbyStatus.Finished, total_bets := 100 }

/-- Active 100-unit bet by bettor 2 on "alice" against lobby address 7. -/
def exBet : Bet :=
  { bettor := 2, lobby := 7, player_name := "alice", amount := 100
    placed_at := 0, status := BetStatus.Active }

/-- `exLobby` after a settlement at time 1. -/
def exLobby1 : Lobby := { exLobby with updated_at := 1 }

/-- `exBet` after settlement. -/
def exBetPaid : Bet := { exBet with status := BetStatus.Paid }

/-- Ledger holding `exLobby` at address 7 with the one settled bet. -/
def exState : LedgerState := ⟨7, exLobby, [exBetPaid]⟩

/-- Eleven one-byte outcome names. -/
def elevenNames : List String := List.replicate 11 "a"

/-- The lobby `create_lobby` builds from `elevenNames`. -/
def exLobby11 : Lobby := initLobby 1 "g" elevenNames 0 0 0 0 0

/-- A lobby created with an empty outcome list. -/
def exLobbyEmpty : Lobby := initLobby 1 "g" [] 0 0 0 0 0

/-- `exLobbyEmpty` after its owner set status `Finished` at time 1. -/
def exLobbyEmptyFin : Lobby :=
  { exLobbyEmpty with status := LobbyStatus.Finished, updated_at := 1 }

/-- `exLobbyW` with `total_bets` already at `u64::MAX`. -/
def exLobbyBig : Lobby := { exLobbyW with total_bets := U64_MAX }

/-- What a successful `place_bet` implies: the exact shape of the
updated lobby and of the new bet, and that every check passed. -/
theorem place_bet_ok {l : Lobby} {lk bk : Nat} {pn : String} {amt : Nat}
    {now : Int} {l' : Lobby} {b' : Bet}
    (h : place_bet l lk bk pn amt now = Except.ok (l', b')) :
    l' = { l with total_bets := l.total_bets + amt, updated_at := now }
    ∧ b' = { bettor := bk, lobby := lk, player_name := pn, amount := amt
             placed_at := now, status := BetStatus.Active }
    ∧ l.total_bets + amt ≤ U64_MAX ∧ 0 < amt
    ∧ l.model_names.contains pn = true
    ∧ (l.status = LobbyStatus.Waiting ∨ l.status = LobbyStatus.Running) := by
  unfold place_bet checked_add at h
  split_ifs at h with h1 h2 h3 h4
  simp only [Except.ok.injEq, Prod.mk.injEq] at h
  exact ⟨h.1.symm, h.2.symm, h4, h3, h2, h1⟩

/-- What a successful `update_lobby_status` implies. -/
theorem update_lobby_status_ok {l : Lobby} {ck : Nat} {st : LobbyStatus}
    {now : Int} {l' : Lobby}
    (h : update_lobby_status l ck st now = Except.ok l') :
    l' = { l with status := st, updated_at := now } ∧ l.owner = ck := by
  unfold update_lobby_status at h
  split_ifs at h with h1
  simp only [Except.ok.injEq] at h
  exact ⟨h.symm, h1⟩

/-- What a successful `distribute_single_winning` implies: the exact
shape of both updated accounts, and that all six checks passed. -/
theorem distribute_ok {l : Lobby} {lk : Nat} {b : Bet} {bk own : Nat}
    {wn : String} {now : Int} {l' : Lobby} {b' : Bet}
    (h : distribute_single_winning l lk b bk own wn now = Except.ok (l', b')) :
    l' = { l with updated_at := now }
    ∧ b' = { b with status := BetStatus.Paid }
    ∧ l.owner = own ∧ l.status = LobbyStatus.Finished
    ∧ b.lobby = lk ∧ b.bettor = bk ∧ b.player_name = wn
    ∧ b.status = BetStatus.Active := by
  unfold distribute_single_winning at h
  split_ifs at h with h1 h2 h3 h4 h5 h6
  simp only [Except.ok.injEq, Prod.mk.injEq] at h
  exact ⟨h.1.symm, h.2.symm, h1, h2, h3, h4, h5, h6⟩

/-- `findBet` on a cons whose head has the key. -/
theorem findBet_cons_pos {x : Bet} {bets : List Bet} {bk : Nat}
    (h : (x.bettor == bk) = true) : findBet (x :: bets) bk = some x :=
  List.find?_cons_of_pos bets h

/-- `findBet` on a cons whose head has a different key. -/
theorem findBet_cons_neg {x : Bet} {bets : List Bet} {bk : Nat}
    (h : (x.bettor == bk) = false) : findBet (x :: bets) bk = findBet bets bk :=
  List.find?_cons_of_neg bets (by simp [h])

/-- A found bet carries the key it was looked up by. -/
theorem findBet_key {bets : List Bet} {bk : Nat} {b : Bet}
    (h : findBet bets bk = some b) : b.bettor = bk := by
  have := List.find?_some h
  simpa using this

/-- Replacing the stored bet under `bk` by a bet that still carries key
`bk` makes lookups of `bk` return the replacement. -/
theorem findBet_replaceBet_self {bets : List Bet} {bk : Nat} {b0 b2 : Bet}
    (hf : findBet bets bk = some b0) (hb : b2.bettor = bk) :
    findBet (replaceBet bets bk b2) bk = some b2 := by
  induction bets with
  | nil => simp [findBet] at hf
  | cons x xs ih =>
    by_cases hx : (x.bettor == bk) = true
    · rw [replaceBet, if_pos hx]
      exact findBet_cons_pos (by simp [hb])
    · rw [replaceBet, if_neg (by simp_all)]
      rw [findBet_cons_neg (by simpa using hx)] at hf
      rw [findBet_cons_neg (by simpa using hx)]
      exact ih hf

/-- Replacing the bet stored under `bk` does not disturb lookups of any
other key. -/
theorem findBet_replaceBet_ne {bets : List Bet} {bk bk' : Nat} {b2 : Bet}
    (hne : bk' ≠ bk) (hb : b2.bettor = bk) :
    findBet (replaceBet bets bk b2) bk' = findBet bets bk' := by
  induction bets with
  | nil => rfl
  | cons x xs ih =>
    by_cases hx : (x.bettor == bk) = true
    · rw [replaceBet, if_pos hx]
      have hxk : x.bettor = bk := by simpa using hx
      rw [findBet_cons_neg (by simp [hb, Ne.symm hne]),
        findBet_cons_neg (by simp [hxk, Ne.symm hne])]
    · rw [replaceBet, if_neg (by simp_all)]
      by_cases hx' : (x.bettor == bk') = true
      · rw [findBet_cons_pos hx', findBet_cons_pos hx']
      · rw [findBet_cons_neg (by simpa using hx'),
          findBet_cons_neg (by simpa using hx')]
        exact ih

/-- Replacing the stored bet by one of equal amount keeps the total of
all recorded amounts. -/
theorem replaceBet_amount_sum {bets : List Bet} {bk : Nat} {b0 b2 : Bet}
    (hf : findBet bets bk = some b0) (ha : b2.amount = b0.amount) :
    ((replaceBet bets bk b2).map Bet.amount).sum = (bets.map Bet.amount).sum := by
  induction bets with
  | nil => rfl
  | cons x xs ih =>
    by_cases hx : (x.bettor == bk) = true
    · rw [findBet_cons_pos hx] at hf
      injection hf with hf
      rw [replaceBet, if_pos hx]
      simp [ha, hf]
    · rw [findBet_cons_neg (by simpa using hx)] at hf
      rw [replaceBet, if_neg (by simp_all)]
      simp [ih hf]

/-- What a successful `create_lobby` implies: the account is exactly the
freshly initialized record and its data fits the allocation. -/
theorem create_lobby_some {owner : Nat} {gid : String} {names : List String}
    {c sb bb mh : Nat} {now : Int} {l : Lobby}
    (h : create_lobby owner gid names c sb bb mh now = some l) :
    l = initLobby owner gid names c sb bb mh now ∧ lobbySerSize l ≤ Lobby.LEN := by
  unfold create_lobby at h
  split_ifs at h with h1
  injection h with h
  exact ⟨h.symm, h ▸ h1⟩

/-- One committed instruction keeps the lobby's address and its
creation-time fields, and never decreases `total_bets`. -/
theorem stepOp_lobby (s : LedgerState) (op : Op) :
    (stepOp s op).lobby_key = s.lobby_key
    ∧ (stepOp s op).lobby.owner = s.lobby.owner
    ∧ (stepOp s op).lobby.game_id = s.lobby.game_id
    ∧ (stepOp s op).lobby.model_names = s.lobby.model_names
    ∧ s.lobby.total_bets ≤ (stepOp s op).lobby.total_bets := by
  cases op with
  | placeBet bk pn amt now =>
    cases hf : findBet s.bets bk with
    | some c => simp [stepOp, hf]
    | none =>
      cases hp : place_bet s.lobby s.lobby_key bk pn amt now with
      | error e => simp [stepOp, hf, hp]
      | ok lb =>
        obtain ⟨l', b'⟩ := lb
        obtain ⟨hl, -, -, -, -, -⟩ := place_bet_ok hp
        simp [stepOp, hf, hp, hl, Nat.le_add_right]
  | updateStatus ck st now =>
    cases hu : update_lobby_status s.lobby ck st now with
    | error e => simp [stepOp, hu]
    | ok l' =>
      obtain ⟨hl, -⟩ := update_lobby_status_ok hu
      simp [stepOp, hu, hl]
  | distribute own bk wn now =>
    cases hf : findBet s.bets bk with
    | none => simp [stepOp, hf]
    | some bet0 =>
      cases hd : distribute_single_winning s.lobby s.lobby_key bet0 bk own wn now with
      | error e => simp [stepOp, hf, hd]
      | ok lb =>
        obtain ⟨l', b2⟩ := lb
        obtain ⟨hl, -, -, -, -, -, -, -⟩ := distribute_ok hd
        simp [stepOp, hf, hd, hl]

/-- `stepOp_lobby` extended to a whole committed instruction sequence. -/
theorem run_lobby (s : LedgerState) (ops : List Op) :
    (run s ops).lobby_key = s.lobby_key
    ∧ (run s ops).lobby.owner = s.lobby.owner
    ∧ (run s ops).lobby.game_id = s.lobby.game_id
    ∧ (run s ops).lobby.model_names = s.lobby.model_names
    ∧ s.lobby.total_bets ≤ (run s ops).lobby.total_bets := by
  induction ops generalizing s with
  | nil => simp [run]
  | cons op ops ih =>
    obtain ⟨k1, o1, g1, m1, t1⟩ := stepOp_lobby s op
    obtain ⟨k2, o2, g2, m2, t2⟩ := ih (stepOp s op)
    refine ⟨?_, ?_, ?_, ?_, ?_⟩ <;>
      simp only [run, List.foldl_cons] at *
    · exact k2.trans k1
    · exact o2.trans o1
    · exact g2.trans g1
    · exact m2.trans m1
    · exact t1.trans t2

/-- One committed instruction either leaves the bet stored under a key
alone or settles it: the only possible change is `Active` → `Paid`. -/
theorem stepOp_findBet (s : LedgerState) (op : Op) (bk : Nat) (b : Bet)
    (h : findBet s.bets bk = some b) :
    findBet (stepOp s op).bets bk = some b
    ∨ (b.status = BetStatus.Active
        ∧ findBet (stepOp s op).bets bk = some { b with status := BetStatus.Paid }) := by
  cases op with
  | placeBet bk' pn amt now =>
    left
    cases hf : findBet s.bets bk' with
    | some c => simpa [stepOp, hf] using h
    | none =>
      cases hp : place_bet s.lobby s.lobby_key bk' pn amt now with
      | error e => simpa [stepOp, hf, hp] using h
      | ok lb =>
        obtain ⟨l', b'⟩ := lb
        obtain ⟨-, hb', -, -, -, -⟩ := place_bet_ok hp
        have hne : bk' ≠ bk := by
          rintro rfl
          rw [hf] at h
          exact Option.noConfusion h
        have hb'k : (b'.bettor == bk) = false := by
          simp [hb', hne]
        simp only [stepOp, hf, hp]
        rw [findBet_cons_neg hb'k]
        exact h
  | updateStatus ck st now =>
    left
    cases hu : update_lobby_status s.lobby ck st now with
    | error e => simpa [stepOp, hu] using h
    | ok l' => simpa [stepOp, hu] using h
  | distribute own bk' wn now =>
    cases hf : findBet s.bets bk' with
    | none => left; simpa [stepOp, hf] using h
    | some bet0 =>
      cases hd : distribute_single_winning s.lobby s.lobby_key bet0 bk' own wn now with
      | error e => left; simpa [stepOp, hf, hd] using h
      | ok lb =>
        obtain ⟨l', b2⟩ := lb
        obtain ⟨-, hb2, -, -, -, -, -, hact⟩ := distribute_ok hd
        subst hb2
        by_cases hk : bk' = bk
        · subst hk
          rw [hf] at h
          injection h with h
          subst h
          right
          refine ⟨hact, ?_⟩
          simp only [stepOp, hf, hd]
          exact findBet_replaceBet_self hf (by simp [findBet_key hf])
        · left
          simp only [stepOp, hf, hd]
          rw [findBet_replaceBet_ne (Ne.symm hk) (by simp [findBet_key hf])]
          exact h

/-- `stepOp_findBet` extended to a whole committed instruction
sequence. -/
theorem run_findBet (s : LedgerState) (ops : List Op) (bk : Nat) (b : Bet)
    (h : findBet s.bets bk = some b) :
    findBet (run s ops).bets bk = some b
    ∨ (b.status = BetStatus.Active
        ∧ findBet (run s ops).bets bk = some { b with status := BetStatus.Paid }) := by
  induction ops generalizing s b with
  | nil => left; simpa [run] using h
  | cons op ops ih =>
    simp only [run, List.foldl_cons] at *
    rcases stepOp_findBet s op bk b h with h1 | ⟨hact, h1⟩
    · exact ih (stepOp s op) b h1
    · rcases ih (stepOp s op) _ h1 with h2 | ⟨hact2, h2⟩
      · right; exact ⟨hact, h2⟩
      · exact absurd hact2 (by simp)

/-- One committed instruction preserves the funds-conservation
invariant. -/
theorem stepOp_Inv (s : LedgerState) (op : Op) (h : Inv s) : Inv (stepOp s op) := by
  cases op with
  | placeBet bk pn amt now =>
    cases hf : findBet s.bets bk with
    | some c => simpa [stepOp, hf] using h
    | none =>
      cases hp : place_bet s.lobby s.lobby_key bk pn amt now with
      | error e => simpa [stepOp, hf, hp] using h
      | ok lb =>
        obtain ⟨l', b'⟩ := lb
        obtain ⟨hl, hb', -, -, -, -⟩ := place_bet_ok hp
        simp only [Inv, stepOp, hf, hp, hl, hb', List.map_cons, List.sum_cons]
        rw [h]
        exact Nat.add_comm _ _
  | updateStatus ck st now =>
    cases hu : update_lobby_status s.lobby ck st now with
    | error e => simpa [stepOp, hu] using h
    | ok l' =>
      obtain ⟨hl, -⟩ := update_lobby_status_ok hu
      simpa [Inv, stepOp, hu, hl] using h
  | distribute own bk wn now =>
    cases hf : findBet s.bets bk with
    | none => simpa [stepOp, hf] using h
    | some bet0 =>
      cases hd : distribute_single_winning s.lobby s.lobby_key bet0 bk own wn now with
      | error e => simpa [stepOp, hf, hd] using h
      | ok lb =>
        obtain ⟨l', b2⟩ := lb
        obtain ⟨hl, hb2, -, -, -, -, -, -⟩ := distribute_ok hd
        subst hb2
        simp only [Inv, stepOp, hf, hd, hl]
        rw [replaceBet_amount_sum hf (by simp)]
        exact h

/-- `stepOp_Inv` extended to a whole committed instruction sequence. -/
theorem run_Inv (s : LedgerState) (ops : List Op) (h : Inv s) : Inv (run s ops) := by
  induction ops generalizing s with
  | nil => simpa [run] using h
  | cons op ops ih =>
    simp only [run, List.foldl_cons]
    exact ih (stepOp s op) (stepOp_Inv s op h)

/-- Claim C1: starting from a freshly created lobby, after every
sequence of committed operations (hence after every committed
`place_bet`) the lobby's `total_bets` equals the sum of `amount` over
all bet records of that lobby. -/
theorem C1_total_bets_matches_sum (owner : Nat) (gid : String)
    (names : List String) (c sb bb mh : Nat) (now : Int) (l : Lobby)
    (h : create_lobby owner gid names c sb bb mh now = some l)
    (lk : Nat) (ops : List Op) :
    Inv (run ⟨lk, l, []⟩ ops) := by
  obtain ⟨hl, -⟩ := create_lobby_some h
  refine run_Inv _ ops ?_
  simp [Inv, hl, initLobby]

/-- Witness for C1: the spec §8 scenario — bets of 100 on "alice" and
50 on "bob" against a fresh lobby keep the invariant (total 150). -/
theorem C1_witness :
    Inv (run ⟨7, exLobbyW, []⟩
      [Op.placeBet 2 "alice" 100 0, Op.placeBet 3 "bob" 50 0]) :=
  C1_total_bets_matches_sum 1 "g1" ["alice", "bob"] 0 0 0 0 0 exLobbyW rfl 7
    [Op.placeBet 2 "alice" 100 0, Op.placeBet 3 "bob" 50 0]

/-- Claim C2: `distribute_single_winning` checks its six preconditions
in source order, each failing with its own distinct error, and succeeds
exactly when all six hold. -/
theorem C2_distribute_check_order (l : Lobby) (lk : Nat) (b : Bet)
    (bk own : Nat) (wn : String) (now : Int) :
    (distribute_single_winning l lk b bk own wn now
        = Except.error BettingError.Unauthorized ↔ l.owner ≠ own)
    ∧ (distribute_single_winning l lk b bk own wn now
        = Except.error BettingError.LobbyNotFinished
        ↔ l.owner = own ∧ l.status ≠ LobbyStatus.Finished)
    ∧ (distribute_single_winning l lk b bk own wn now
        = Except.error BettingError.InvalidBetAccount
        ↔ l.owner = own ∧ l.status = LobbyStatus.Finished ∧ b.lobby ≠ lk)
    ∧ (distribute_single_winning l lk b bk own wn now
        = Except.error BettingError.InvalidBettor
        ↔ l.owner = own ∧ l.status = LobbyStatus.Finished ∧ b.lobby = lk
          ∧ b.bettor ≠ bk)
    ∧ (distribute_single_winning l lk b bk own wn now
        = Except.error BettingError.BetOnWrongPlayer
        ↔ l.owner = own ∧ l.status = LobbyStatus.Finished ∧ b.lobby = lk
          ∧ b.bettor = bk ∧ b.player_name ≠ wn)
    ∧ (distribute_single_winning l lk b bk own wn now
        = Except.error BettingError.BetAlreadyProcessed
        ↔ l.owner = own ∧ l.status = LobbyStatus.Finished ∧ b.lobby = lk
          ∧ b.bettor = bk ∧ b.player_name = wn ∧ b.status ≠ BetStatus.Active)
    ∧ ((∃ out, distribute_single_winning l lk b bk own wn now = Except.ok out)
        ↔ l.owner = own ∧ l.status = LobbyStatus.Finished ∧ b.lobby = lk
          ∧ b.bettor = bk ∧ b.player_name = wn ∧ b.status = BetStatus.Active) := by
  unfold distribute_single_winning
  by_cases h1 : l.owner = own <;> by_cases h2 : l.status = LobbyStatus.Finished <;>
    by_cases h3 : b.lobby = lk <;> by_cases h4 : b.bettor = bk <;>
    by_cases h5 : b.player_name = wn <;> by_cases h6 : b.status = BetStatus.Active <;>
    simp [h1, h2, h3, h4, h5, h6]

/-- Claim C3: `place_bet` fails `LobbyNotOpenForBets` exactly when the
lobby is neither Waiting nor Running, otherwise `InvalidPlayerName`
exactly when the name is not registered, otherwise
`BetAmountMustBePositive` exactly when the amount is zero; and any
failing `place_bet` leaves the ledger exactly as it was (no bet record,
no lobby change). -/
theorem C3_place_bet_checks (s : LedgerState) (bk : Nat) (pn : String)
    (amt : Nat) (now : Int) :
    (place_bet s.lobby s.lobby_key bk pn amt now
        = Except.error BettingError.LobbyNotOpenForBets
        ↔ s.lobby.status ≠ LobbyStatus.Waiting ∧ s.lobby.status ≠ LobbyStatus.Running)
    ∧ (place_bet s.lobby s.lobby_key bk pn amt now
        = Except.error BettingError.InvalidPlayerName
        ↔ (s.lobby.status = LobbyStatus.Waiting ∨ s.lobby.status = LobbyStatus.Running)
          ∧ s.lobby.model_names.contains pn = false)
    ∧ (place_bet s.lobby s.lobby_key bk pn amt now
        = Except.error BettingError.BetAmountMustBePositive
        ↔ (s.lobby.status = LobbyStatus.Waiting ∨ s.lobby.status = LobbyStatus.Running)
          ∧ s.lobby.model_names.contains pn = true ∧ amt = 0)
    ∧ (∀ e, place_bet s.lobby s.lobby_key bk pn amt now = Except.error e →
        stepOp s (Op.placeBet bk pn amt now) = s) := by
  have hstep : ∀ e, place_bet s.lobby s.lobby_key bk pn amt now = Except.error e →
      stepOp s (Op.placeBet bk pn amt now) = s := by
    intro e he
    cases hf : findBet s.bets bk with
    | some c => simp [stepOp, hf]
    | none => simp [stepOp, hf, he]
  refine ⟨?_, ?_, ?_, hstep⟩
  all_goals
    unfold place_bet checked_add
    by_cases h1 : (s.lobby.status = LobbyStatus.Waiting ∨ s.lobby.status = LobbyStatus.Running) <;>
      by_cases h2 : pn ∈ s.lobby.model_names <;>
      by_cases h3 : amt = 0 <;>
      by_cases h4 : s.lobby.total_bets + amt ≤ U64_MAX <;>
      simp [h1, h2, h3, h4, Nat.pos_iff_ne_zero, not_or] <;> tauto

/-- Witness for C3: a bet against the finished lobby `exLobby` fails and
the ledger is exactly unchanged. -/
theorem C3_witness : stepOp exState (Op.placeBet 5 "alice" 10 0) = exState :=
  (C3_place_bet_checks exState 5 "alice" 10 0).2.2.2
    BettingError.LobbyNotOpenForBets rfl

/-- Counterexample for C4 as stated: after bettor 2's bet is settled, a
repeat settlement attempt by a non-owner (caller 99) on that same bet
fails with `Unauthorized`, not with `BetAlreadyProcessed`. -/
theorem C4_counterexample :
    distribute_single_winning exLobby 7 exBet 2 1 "alice" 1
      = Except.ok (exLobby1, exBetPaid)
    ∧ exBetPaid.status = BetStatus.Paid
    ∧ distribute_single_winning exLobby1 7 exBetPaid 2 99 "alice" 2
      = Except.error BettingError.Unauthorized
    ∧ BettingError.Unauthorized ≠ BettingError.BetAlreadyProcessed :=
  ⟨rfl, rfl, rfl, by decide⟩

/-- Claim C4 as amended: a bet whose status is `Paid` can never be
settled again — `distribute_single_winning` on it never succeeds, and
fails with `BetAlreadyProcessed` whenever the five earlier checks pass
(with that earlier check's error otherwise); moreover a `Paid` bet stays
exactly as it is across every further committed operation. -/
theorem C4_paid_absorbing (l : Lobby) (lk : Nat) (b : Bet) (bk own : Nat)
    (wn : String) (now : Int) :
    (b.status = BetStatus.Paid →
      (∀ out, distribute_single_winning l lk b bk own wn now ≠ Except.ok out)
      ∧ (l.owner = own → l.status = LobbyStatus.Finished → b.lobby = lk →
          b.bettor = bk → b.player_name = wn →
          distribute_single_winning l lk b bk own wn now
            = Except.error BettingError.BetAlreadyProcessed))
    ∧ (∀ (s : LedgerState) (ops : List Op) (bk' : Nat) (b' : Bet),
        findBet s.bets bk' = some b' → b'.status = BetStatus.Paid →
        findBet (run s ops).bets bk' = some b') := by
  refine ⟨?_, ?_⟩
  · intro hp
    constructor
    · intro out hok
      rcases out with ⟨l', b2⟩
      have hact := (distribute_ok hok).2.2.2.2.2.2.2
      rw [hp] at hact
      exact BetStatus.noConfusion hact
    · intro h1 h2 h3 h4 h5
      unfold distribute_single_winning
      rw [if_pos h1, if_pos h2, if_pos h3, if_pos h4, if_pos h5,
        if_neg (by simp [hp])]
  · intro s ops bk' b' hf hp
    rcases run_findBet s ops bk' b' hf with h | ⟨hact, -⟩
    · exact h
    · rw [hp] at hact
      exact BetStatus.noConfusion hact

/-- Witness for C4 (amended): the settled bet `exBetPaid` cannot be
settled again — the exact-repeat call fails `BetAlreadyProcessed` — and
it survives a status toggle untouched. -/
theorem C4_witness :
    distribute_single_winning exLobby 7 exBetPaid 2 1 "alice" 5
      ≠ Except.ok (exLobby1, exBetPaid)
    ∧ distribute_single_winning exLobby 7 exBetPaid 2 1 "alice" 5
      = Except.error BettingError.BetAlreadyProcessed
    ∧ findBet (run exState [Op.updateStatus 1 LobbyStatus.Running 3]).bets 2
      = some exBetPaid :=
  ⟨((C4_paid_absorbing exLobby 7 exBetPaid 2 1 "alice" 5).1 rfl).1
      (exLobby1, exBetPaid),
    ((C4_paid_absorbing exLobby 7 exBetPaid 2 1 "alice" 5).1 rfl).2
      rfl rfl rfl rfl rfl,
    (C4_paid_absorbing exLobby 7 exBetPaid 2 1 "alice" 5).2 exState
      [Op.updateStatus 1 LobbyStatus.Running 3] 2 exBetPaid rfl rfl⟩

/-- Claim C5: a successful `place_bet` adds exactly `amount` to
`total_bets` with the sum still in `u64` range; when every check passes
but the sum would leave the range, the call fails `Overflow`; and
`total_bets` never decreases across any committed operation sequence. -/
theorem C5_checked_increment (l : Lobby) (lk bk : Nat) (pn : String)
    (amt : Nat) (now : Int) :
    (∀ l' b', place_bet l lk bk pn amt now = Except.ok (l', b') →
        l'.total_bets = l.total_bets + amt ∧ l.total_bets + amt ≤ U64_MAX)
    ∧ ((l.status = LobbyStatus.Waiting ∨ l.status = LobbyStatus.Running) →
        l.model_names.contains pn = true → 0 < amt →
        U64_MAX < l.total_bets + amt →
        place_bet l lk bk pn amt now = Except.error BettingError.Overflow)
    ∧ (∀ (s : LedgerState) (ops : List Op),
        s.lobby.total_bets ≤ (run s ops).lobby.total_bets) := by
  refine ⟨?_, ?_, ?_⟩
  · intro l' b' h
    obtain ⟨hl, -, hb, -, -, -⟩ := place_bet_ok h
    exact ⟨by rw [hl], hb⟩
  · intro h1 h2 h3 h4
    unfold place_bet checked_add
    rw [if_pos h1, if_pos h2, if_pos h3, if_neg (Nat.not_le.mpr h4)]
  · intro s ops
    exact (run_lobby s ops).2.2.2.2

/-- Witness for C5: a 100-unit bet on the fresh lobby lands exactly at
100, and a 1-unit bet on a lobby already at `u64::MAX` overflows. -/
theorem C5_witness :
    (({ exLobbyW with total_bets := 100, updated_at := 0 } : Lobby).total_bets
        = exLobbyW.total_bets + 100 ∧ exLobbyW.total_bets + 100 ≤ U64_MAX)
    ∧ place_bet exLobbyBig 7 2 "alice" 1 0 = Except.error BettingError.Overflow
    ∧ exState.lobby.total_bets ≤ (run exState []).lobby.total_bets :=
  ⟨(C5_checked_increment exLobbyW 7 2 "alice" 100 0).1
      { exLobbyW with total_bets := 100, updated_at := 0 }
      { bettor := 2, lobby := 7, player_name := "alice", amount := 100
        placed_at := 0, status := BetStatus.Active } rfl,
    (C5_checked_increment exLobbyBig 7 2 "alice" 1 0).2.1
      (Or.inl rfl) rfl (by decide) (by decide),
    (C5_checked_increment exLobbyW 7 2 "alice" 100 0).2.2 exState []⟩

/-- Claim C6: `update_lobby_status` fails `Unauthorized` for any
non-owner caller, leaving the ledger unchanged, and for the owner sets
any requested status from any current status (also out of `Finished`)
while refreshing `updated_at`. -/
theorem C6_update_status (l : Lobby) (caller : Nat) (st : LobbyStatus)
    (now : Int) :
    (l.owner ≠ caller →
      update_lobby_status l caller st now = Except.error BettingError.Unauthorized)
    ∧ (l.owner = caller →
      update_lobby_status l caller st now
        = Except.ok { l with status := st, updated_at := now })
    ∧ (∀ s : LedgerState, s.lobby.owner ≠ caller →
        stepOp s (Op.updateStatus caller st now) = s) := by
  refine ⟨?_, ?_, ?_⟩
  · intro h
    unfold update_lobby_status
    rw [if_neg h]
  · intro h
    unfold update_lobby_status
    rw [if_pos h]
  · intro s h
    have hu : update_lobby_status s.lobby caller st now
        = Except.error BettingError.Unauthorized := by
      unfold update_lobby_status
      rw [if_neg h]
    simp [stepOp, hu]

/-- Witness for C6: caller 9 is rejected on `exLobby` (owned by 1), and
owner 1 moves the finished `exLobby` back to `Waiting`. -/
theorem C6_witness :
    update_lobby_status exLobby 9 LobbyStatus.Waiting 5
      = Except.error BettingError.Unauthorized
    ∧ update_lobby_status exLobby 1 LobbyStatus.Waiting 5
      = Except.ok { exLobby with status := LobbyStatus.Waiting, updated_at := 5 }
    ∧ stepOp exState (Op.updateStatus 9 LobbyStatus.Waiting 5) = exState :=
  ⟨(C6_update_status exLobby 9 LobbyStatus.Waiting 5).1 (by decide),
    (C6_update_status exLobby 1 LobbyStatus.Waiting 5).2.1 rfl,
    (C6_update_status exLobby 9 LobbyStatus.Waiting 5).2.2 exState (by decide)⟩

/-- Claim C7: across every committed operation sequence the lobby keeps
its `owner`, `game_id` and `model_names`, and every bet record keeps
its `bettor`, `lobby`, `player_name` and `amount`. -/
theorem C7_creation_fields_immutable (s : LedgerState) (ops : List Op) :
    (run s ops).lobby.owner = s.lobby.owner
    ∧ (run s ops).lobby.game_id = s.lobby.game_id
    ∧ (run s ops).lobby.model_names = s.lobby.model_names
    ∧ ∀ bk b, findBet s.bets bk = some b →
        ∃ b', findBet (run s ops).bets bk = some b'
          ∧ b'.bettor = b.bettor ∧ b'.lobby = b.lobby
          ∧ b'.player_name = b.player_name ∧ b'.amount = b.amount := by
  obtain ⟨-, ho, hg, hm, -⟩ := run_lobby s ops
  refine ⟨ho, hg, hm, ?_⟩
  intro bk b hf
  rcases run_findBet s ops bk b hf with h | ⟨-, h⟩
  · exact ⟨b, h, rfl, rfl, rfl, rfl⟩
  · exact ⟨{ b with status := BetStatus.Paid }, h, rfl, rfl, rfl, rfl⟩

/-- Witness for C7: a status toggle on `exState` leaves every creation
field of `exLobby` and every identity field of its bet record intact. -/
theorem C7_witness :
    (run exState [Op.updateStatus 1 LobbyStatus.Running 3]).lobby.owner
      = exState.lobby.owner
    ∧ (run exState [Op.updateStatus 1 LobbyStatus.Running 3]).lobby.game_id
      = exState.lobby.game_id
    ∧ (run exState [Op.updateStatus 1 LobbyStatus.Running 3]).lobby.model_names
      = exState.lobby.model_names
    ∧ ∃ b', findBet (run exState [Op.updateStatus 1 LobbyStatus.Running 3]).bets 2
        = some b'
        ∧ b'.bettor = exBetPaid.bettor ∧ b'.lobby = exBetPaid.lobby
        ∧ b'.player_name = exBetPaid.player_name ∧ b'.amount = exBetPaid.amount := by
  obtain ⟨h1, h2, h3, h4⟩ :=
    C7_creation_fields_immutable exState [Op.updateStatus 1 LobbyStatus.Running 3]
  exact ⟨h1, h2, h3, h4 2 exBetPaid rfl⟩

/-- Claim C8: a successful settlement changes exactly `bet.status` (to
`Paid`) and `lobby.updated_at`, and nothing else — in particular
`total_bets` keeps its value. -/
theorem C8_distribute_frame (l : Lobby) (lk : Nat) (b : Bet) (bk own : Nat)
    (wn : String) (now : Int) (l' : Lobby) (b' : Bet)
    (h : distribute_single_winning l lk b bk own wn now = Except.ok (l', b')) :
    l' = { l with updated_at := now } ∧ b' = { b with status := BetStatus.Paid } := by
  obtain ⟨h1, h2, -, -, -, -, -, -⟩ := distribute_ok h
  exact ⟨h1, h2⟩

/-- Witness for C8: settling `exBet` at time 1 yields exactly `exLobby`
with a refreshed timestamp and `exBet` marked `Paid`. -/
theorem C8_witness :
    exLobby1 = { exLobby with updated_at := 1 }
    ∧ exBetPaid = { exBet with status := BetStatus.Paid } :=
  C8_distribute_frame exLobby 7 exBet 2 1 "alice" 1 exLobby1 exBetPaid rfl

/-- Counterexample for C9 as stated: `create_lobby` accepts eleven
outcome names (eleven one-byte strings fit the 488-byte allocation), so
a lobby can hold more than 10 entries. -/
theorem C9_counterexample :
    create_lobby 1 "g" elevenNames 0 0 0 0 0 = some exLobby11
    ∧ 10 < exLobby11.model_names.length :=
  ⟨rfl, by decide⟩

/-- Claim C9 as amended: `model_names` is bounded only through the fixed
account allocation — any lobby `create_lobby` accepts stores the list
verbatim with total serialized size at most `Lobby::LEN` = 488 bytes
(the `(4+32)*10` term merely sizes that allocation for 10 names of 32
bytes), and no committed operation ever changes `model_names`. -/
theorem C9_size_bound (owner : Nat) (gid : String) (names : List String)
    (c sb bb mh : Nat) (now : Int) :
    (∀ l, create_lobby owner gid names c sb bb mh now = some l →
        l.model_names = names ∧ lobbySerSize l ≤ Lobby.LEN)
    ∧ Lobby.LEN = 488
    ∧ (∀ (s : LedgerState) (ops : List Op),
        (run s ops).lobby.model_names = s.lobby.model_names) := by
  refine ⟨?_, by decide, ?_⟩
  · intro l h
    obtain ⟨hl, hsz⟩ := create_lobby_some h
    exact ⟨by simp [hl, initLobby], hsz⟩
  · intro s ops
    exact (run_lobby s ops).2.2.2.1

/-- Witness for C9 (amended): the eleven-name lobby stores the list
verbatim within the allocation. -/
theorem C9_witness :
    exLobby11.model_names = elevenNames ∧ lobbySerSize exLobby11 ≤ Lobby.LEN :=
  (C9_size_bound 1 "g" elevenNames 0 0 0 0 0).1 exLobby11 rfl

/-- Counterexample for C10 as stated: on a lobby created with no outcome
names, once the owner sets status `Finished`, a `place_bet` fails with
`LobbyNotOpenForBets`, not `InvalidPlayerName`. -/
theorem C10_counterexample :
    create_lobby 1 "g" [] 0 0 0 0 0 = some exLobbyEmpty
    ∧ update_lobby_status exLobbyEmpty 1 LobbyStatus.Finished 1
      = Except.ok exLobbyEmptyFin
    ∧ place_bet exLobbyEmptyFin 7 2 "anything" 5 2
      = Except.error BettingError.LobbyNotOpenForBets
    ∧ BettingError.LobbyNotOpenForBets ≠ BettingError.InvalidPlayerName :=
  ⟨rfl, rfl, rfl, by decide⟩

/-- Claim C10 as amended: `create_lobby` accepts an empty `model_names`
list (for any `game_id` of at most 32 bytes), the list stays empty
across all committed operations, and every `place_bet` on such a lobby
fails — with `InvalidPlayerName` whenever the lobby is open for bets
(`Waiting` or `Running`), and with `LobbyNotOpenForBets` otherwise. -/
theorem C10_empty_model_names (owner : Nat) (gid : String)
    (c sb bb mh : Nat) (now : Int) :
    (gid.utf8ByteSize ≤ 32 →
      (create_lobby owner gid [] c sb bb mh now).isSome = true)
    ∧ (∀ (l : Lobby) (lk bk : Nat) (pn : String) (amt : Nat) (t : Int),
        l.model_names = [] →
          (∀ out, place_bet l lk bk pn amt t ≠ Except.ok out)
          ∧ ((l.status = LobbyStatus.Waiting ∨ l.status = LobbyStatus.Running) →
              place_bet l lk bk pn amt t
                = Except.error BettingError.InvalidPlayerName))
    ∧ (∀ (s : LedgerState) (ops : List Op), s.lobby.model_names = [] →
        (run s ops).lobby.model_names = []) := by
  refine ⟨?_, ?_, ?_⟩
  · intro hg
    have hsz : lobbySerSize (initLobby owner gid [] c sb bb mh now) ≤ Lobby.LEN := by
      simp only [lobbySerSize, initLobby, borshStrLen, Lobby.LEN, List.map_nil,
        List.sum_nil]
      omega
    unfold create_lobby
    rw [if_pos hsz]
    rfl
  · intro l lk bk pn amt t hm
    constructor
    · intro out hok
      rcases out with ⟨l', b'⟩
      have hc := (place_bet_ok hok).2.2.2.2.1
      rw [hm] at hc
      simp at hc
    · intro hopen
      unfold place_bet
      rw [if_pos hopen, hm]
      rfl
  · intro s ops hm
    rw [(run_lobby s ops).2.2.2.1, hm]

/-- Witness for C10 (amended): the empty-list lobby is created, an open
bet on it fails `InvalidPlayerName`, and the list stays empty. -/
theorem C10_witness :
    (create_lobby 1 "g" [] 0 0 0 0 0).isSome = true
    ∧ place_bet exLobbyEmpty 7 2 "alice" 5 0
      = Except.error BettingError.InvalidPlayerName
    ∧ (run ⟨7, exLobbyEmpty, []⟩ []).lobby.model_names = [] :=
  ⟨(C10_empty_model_names 1 "g" 0 0 0 0 0).1 (by decide),
    ((C10_empty_model_names 1 "g" 0 0 0 0 0).2.1 exLobbyEmpty 7 2 "alice" 5 0 rfl).2
      (Or.inl rfl),
    (C10_empty_model_names 1 "g" 0 0 0 0 0).2.2 ⟨7, exLobbyEmpty, []⟩ [] rfl⟩

end PokerBetting
